import Mathlib

/-!
Verification of the utility layer in src/lofreq_core/utils.c.

Embedding conventions:
- size_t values are Nat with SIZE_MAX = 2 ^ 64 - 1 (LP64 platform); the
  source's overflow asserts are embedded as the same explicit conditions.
- C doubles are embedded as rationals; every theorem below only evaluates the
  embedded double arithmetic on small dyadic values, on which the
  corresponding IEEE-754 double operations are exact.
- Fallible code and undefined behaviour are surfaced with Option / Except /
  explicit outcome constructors.
-/

-- ===================== GrowableArray: int_varray (utils.c:79-117) ==========

deriving instance DecidableEq for Except

/-- Width of a C int in bytes on the target platform. -/
def SIZEOF_INT : Nat := 4

/-- Largest value of size_t on the target platform (LP64). -/
def SIZE_MAX : Nat := 2 ^ 64 - 1

/-- State of an int_varray_t: n elements stored, alloced BYTES allocated,
grow_by_size growth parameter (bytes, as the source adds it to alloced),
and the stored values. -/
structure int_varray_t where
  n : Nat
  alloced : Nat
  grow_by_size : Nat
  data : List Int
deriving DecidableEq

/-- Capacity in elements corresponding to the allocated byte count. -/
def int_varray_t.capacity (a : int_varray_t) : Nat := a.alloced / SIZEOF_INT

/-- Failure outcomes of the append operation: a growth-size assert firing
(overflow), or the element store landing outside the allocated block
(undefined behaviour in the C source). -/
inductive VAErr where
  | overflow
  | oob
deriving DecidableEq

/-- Store v at element slot idx of the buffer contents d. Slots that were
never written read back as 0 in the model; in every reachable state of the
source idx equals d.length and this is a plain append. -/
def storeAt (d : List Int) (idx : Nat) (v : Int) : List Int :=
  if idx < d.length then d.set idx v
  else d ++ List.replicate (idx - d.length) 0 ++ [v]

/-- The write a->data[a->n] = value; a->n++. The write is in bounds iff the
slot lies inside the allocated block, otherwise it is undefined behaviour. -/
def int_varray_store (a : int_varray_t) (v : Int) : Except VAErr int_varray_t :=
  if (a.n + 1) * SIZEOF_INT ≤ a.alloced then
    Except.ok { a with data := storeAt a.data a.n v, n := a.n + 1 }
  else Except.error VAErr.oob

/-- int_varray_init (utils.c:88-97). -/
def int_varray_init (grow_by_size : Nat) : int_varray_t :=
  { n := 0, alloced := 0, grow_by_size := grow_by_size, data := [] }

/-- int_varray_free (utils.c:79-86): releases the buffer and zeroes every
field, including grow_by_size. -/
def int_varray_free (a : int_varray_t) : int_varray_t :=
  { n := 0, alloced := 0, grow_by_size := 0, data := [] }

/-- int_varray_add_value (utils.c:99-117). Grows when n*sizeof(int) ==
alloced: with grow_by_size <= 1 the new byte size is sizeof(int) for the
first allocation and alloced*2 afterwards, otherwise alloced+grow_by_size;
each growth is guarded by the source's assert on SIZE_MAX. Then stores the
value at slot n. realloc itself is assumed to succeed. -/
def int_varray_add_value (a : int_varray_t) (v : Int) : Except VAErr int_varray_t :=
  if a.n * SIZEOF_INT = a.alloced then
    if a.grow_by_size ≤ 1 then
      if SIZE_MAX - a.alloced > a.alloced then
        int_varray_store { a with alloced := if a.n = 0 then SIZEOF_INT else a.alloced * 2 } v
      else Except.error VAErr.overflow
    else
      if SIZE_MAX - a.alloced > a.grow_by_size then
        int_varray_store { a with alloced := a.alloced + a.grow_by_size } v
      else Except.error VAErr.overflow
  else int_varray_store a v

/-- Sequence of append operations. -/
def int_varray_appendAll (a : int_varray_t) : List Int → Except VAErr int_varray_t
  | [] => Except.ok a
  | v :: vs =>
    match int_varray_add_value a v with
    | Except.ok b => int_varray_appendAll b vs
    | Except.error e => Except.error e

/-- Growth increments for which the byte accounting stays element-aligned:
the doubling policy, or a fixed increment that is a multiple of
sizeof(int). -/
def GoodInc (g : Nat) : Prop := g ≤ 1 ∨ SIZEOF_INT ∣ g

/-- Invariant of reachable int_varray_t states: the stored list has exactly
n values, the n occupied slots fit in the allocated block, the block size is
element-aligned, and the block size is linearly bounded by n. -/
def VAInv (a : int_varray_t) : Prop :=
  a.data.length = a.n ∧ a.n * SIZEOF_INT ≤ a.alloced ∧ SIZEOF_INT ∣ a.alloced ∧
    a.alloced ≤ 2 * SIZEOF_INT * a.n + a.grow_by_size + SIZEOF_INT

-- ===================== Comparators and statistics (utils.c:44-76, 419-435) =

/-- Machine epsilon of the IEEE-754 double type. -/
def DBL_EPSILON : ℚ := 1 / 2 ^ 52

/-- dbl_cmp (utils.c:44-54): epsilon-tolerant three-way comparison. -/
def dbl_cmp (da db : ℚ) : Int :=
  if |da - db| < DBL_EPSILON then 0
  else if da < db then -1 else if db < da then 1 else 0

/-- Pairs on which dbl_cmp is an honest total order: equal values, or values
separated by at least DBL_EPSILON. -/
def EpsSep (a b : ℚ) : Prop := a = b ∨ DBL_EPSILON ≤ |a - b|

/-- Insertion step of the sort used to embed the qsort call of dbl_median:
x goes in front of the first element it does not compare greater than. -/
def dbl_insert (x : ℚ) : List ℚ → List ℚ
  | [] => [x]
  | y :: ys => if dbl_cmp x y ≤ 0 then x :: y :: ys else y :: dbl_insert x ys

/-- Comparison sort with dbl_cmp, embedding the qsort call of dbl_median
(on the target LP64 platform the source's element size sizeof(double *)
equals sizeof(double), so the call does sort the array of doubles). -/
def dbl_sort : List ℚ → List ℚ
  | [] => []
  | x :: xs => dbl_insert x (dbl_sort xs)

/-- dbl_median (utils.c:419-435): size 0 returns 0.0; otherwise sort a copy
with dbl_cmp and take the middle element (odd size) or the mean of the two
middle elements (even size). -/
def dbl_median (data : List ℚ) : ℚ :=
  if data.length = 0 then 0
  else if data.length % 2 = 0 then
    ((dbl_sort data).getD (data.length / 2) 0 + (dbl_sort data).getD (data.length / 2 - 1) 0) / 2
  else (dbl_sort data).getD (data.length / 2) 0

/-- argmax_d (utils.c:65-76): loop i over 0..n-1 keeping the index of the
largest element seen, starting from maxidx = 0; strict comparison, so ties
keep the lower index. Reads are modelled with getD (the source only ever
calls it with n equal to the array length). -/
def argmax_d (arr : List ℚ) (n : Nat) : Nat :=
  (List.range n).foldl (fun maxidx i => if arr.getD i 0 > arr.getD maxidx 0 then i else maxidx) 0

-- ===================== is_dir (utils.c:123-137) ============================

/-- File-type mask of st_mode. -/
def S_IFMT : Nat := 0o170000

/-- Directory file type. -/
def S_IFDIR : Nat := 0o040000

/-- Block-device file type. -/
def S_IFBLK : Nat := 0o060000

/-- The POSIX directory test: the file-type field equals S_IFDIR. -/
def S_ISDIR (m : Nat) : Bool := m &&& S_IFMT == S_IFDIR

/-- is_dir (utils.c:123-137). The stat result is none on failure, otherwise
some st_mode. The source tests s.st_mode & S_IFDIR (a nonzero bit overlap),
not the POSIX S_ISDIR test. -/
def is_dir (st : Option Nat) : Bool :=
  match st with
  | some m => if m &&& S_IFDIR ≠ 0 then true else false
  | none => false

-- ===================== ae_load_file_to_memory (utils.c:163-185) ============

/-- Environment of one call: the file (none = fopen fails, otherwise its
bytes), whether malloc(size+1) succeeds, and the item count fread returns. -/
structure LoadEnv where
  file : Option (List Int)
  mallocOk : Bool
  readCount : Nat

/-- Outcomes: the source's -1 (open failure), -2 (the dead allocation-check
branch), -3 (short read, buffer freed), undefined behaviour (a store or read
through a NULL pointer), or success with the returned size and the buffer
contents including the appended terminator. -/
inductive LoadResult where
  | openFail
  | allocFail
  | readFail
  | ub
  | ok (size : Nat) (buf : List Int)
deriving DecidableEq

/-- ae_load_file_to_memory (utils.c:163-185). result_is_null states whether
the caller passed a NULL result pointer; every path stores through result
before the allocation check, so that case is undefined behaviour. The
source's allocation check reads `if (NULL==result)` - the out-parameter
itself, not the freshly allocated *result - so a failed malloc is never
detected and the NULL buffer is passed to fread and dereferenced. -/
def ae_load_file_to_memory (result_is_null : Bool) (env : LoadEnv) : LoadResult :=
  match env.file with
  | none =>
    if result_is_null then LoadResult.ub else LoadResult.openFail
  | some content =>
    if result_is_null then LoadResult.ub
    else if result_is_null then LoadResult.allocFail
    else if env.mallocOk = false then LoadResult.ub
    else if env.readCount ≠ content.length then LoadResult.readFail
    else LoadResult.ok content.length (content ++ [0])

-- ===================== readlink_malloc (utils.c:327-345) ===================

/-- Result of one OS readlink call on a symlink whose target is N bytes:
none is undefined behaviour (the kernel told to write more bytes than the
buffer holds), some none is the -1 error return (EFAULT on a NULL buffer),
some (some k) means k bytes were written. The buffer is none when NULL,
otherwise some capacity. -/
def os_readlink (N : Nat) (buffer : Option Nat) (size : Nat) : Option (Option Nat) :=
  match buffer with
  | none => some none
  | some cap => if min N size ≤ cap then some (some (min N size)) else none

/-- Outcomes of readlink_malloc: NULL return, a returned buffer of the given
capacity, undefined behaviour, or fuel exhaustion of the model. -/
inductive RLOut where
  | null
  | buf (cap : Nat)
  | ub
  | spin
deriving DecidableEq

/-- Loop of readlink_malloc (utils.c:333-344), exactly in source order:
first call readlink on the CURRENT buffer, then realloc the buffer to size,
then test nchars. On the first iteration the buffer is still NULL. -/
def readlink_malloc_go (N : Nat) : Nat → Option Nat → Nat → RLOut
  | 0, _, _ => RLOut.spin
  | fuel + 1, buffer, size =>
    match os_readlink N buffer size with
    | none => RLOut.ub
    | some nchars =>
      match nchars with
      | none => RLOut.null
      | some k =>
        if k < size then RLOut.buf size
        else readlink_malloc_go N fuel (some size) (size * 2)

/-- readlink_malloc (utils.c:327-345) for a symlink with an N-byte target:
size starts at 100, buffer starts NULL. -/
def readlink_malloc (N : Nat) (fuel : Nat) : RLOut :=
  readlink_malloc_go N fuel none 100

-- ===================== resolved_path (utils.c:351-415) =====================

/-- Abstract filesystem for resolved_path. lstat, readlink and realpath take
the current working directory first (relative names resolve against it);
lstat yields none on failure, otherwise whether the path is a symlink;
readlink is the result of the readlink_malloc call at utils.c:380 (none =
NULL; per the transposed-call bug embedded in readlink_malloc above, the
shipped program always gets none here); chdirOk says whether chdir to a
directory succeeds; dirname is the directory component used for the
mid-loop chdir. -/
structure FSModel where
  lstat : String → String → Option Bool
  readlink : String → String → Option String
  chdirOk : String → Bool
  realpath : String → String → Option String
  dirname : String → String

/-- How the loop of resolved_path ended. -/
inductive RPExit where
  | ok
  | lstatFail
  | readlinkFail
  | chdirFail
  | realpathFail
deriving DecidableEq

/-- Effect on the working directory of the final chdir(orig_wd): a failed
chdir leaves the directory unchanged (the source only logs and continues). -/
def chdir_restore (fs : FSModel) (cwd orig : String) : String :=
  if fs.chdirOk orig then orig else cwd

/-- Loop of resolved_path (utils.c:362-411). Returns none when the fuel runs
out (a symlink cycle loops forever in the source), otherwise the exit kind,
the returned path (none = NULL) and the final working directory. Every
failure path except the chdir failure jumps to chdir_and_return, which
restores orig_wd; the chdir failure at utils.c:386-391 returns NULL directly,
keeping whatever working directory the loop is in (the failed chdir itself
does not change it). -/
def rpAux (fs : FSModel) (orig_wd : String) : Nat → String → String → Option (RPExit × Option String × String)
  | 0, _, _ => none
  | fuel + 1, rp, cwd =>
    match fs.lstat cwd rp with
    | none => some (RPExit.lstatFail, none, chdir_restore fs cwd orig_wd)
    | some isLink =>
      if isLink then
        match fs.readlink cwd rp with
        | none => some (RPExit.readlinkFail, none, chdir_restore fs cwd orig_wd)
        | some tmp =>
          if fs.chdirOk (fs.dirname rp) then
            match fs.realpath (fs.dirname rp) tmp with
            | none => some (RPExit.realpathFail, none, chdir_restore fs (fs.dirname rp) orig_wd)
            | some rb => rpAux fs orig_wd fuel rb (fs.dirname rp)
          else
            some (RPExit.chdirFail, none, cwd)
      else
        some (RPExit.ok, some rp, chdir_restore fs cwd orig_wd)

/-- resolved_path (utils.c:351-415), given the initial working directory
cwd0 returned by getcwd (the fatal getcwd failure is out of scope of the
claims). -/
def resolved_path (fs : FSModel) (fuel : Nat) (path cwd0 : String) : Option (RPExit × Option String × String) :=
  rpAux fs cwd0 fuel path cwd0

/-- Trivial filesystem on which resolved_path succeeds immediately: nothing
is a symlink and every chdir succeeds. -/
def fs0 : FSModel :=
  { lstat := fun _ _ => some false
    readlink := fun _ _ => none
    chdirOk := fun _ => true
    realpath := fun _ _ => none
    dirname := fun p => p }

-- ===================== Theorems ============================================

-- Helper facts about argmax_d.

theorem argmax_d_spec (arr : List ℚ) :
    ∀ n : Nat,
      (argmax_d arr n = 0 ∨ argmax_d arr n < n) ∧
      (∀ i, i < n → arr.getD i 0 ≤ arr.getD (argmax_d arr n) 0) ∧
      (∀ j, j < argmax_d arr n → arr.getD j 0 < arr.getD (argmax_d arr n) 0) := by
  intro n
  induction n with
  | zero =>
    have h0 : argmax_d arr 0 = 0 := rfl
    refine ⟨Or.inl h0, ?_, ?_⟩
    · intro i hi
      exact absurd hi (Nat.not_lt_zero i)
    · intro j hj
      rw [h0] at hj
      exact absurd hj (Nat.not_lt_zero j)
  | succ m ih =>
    have hstep : argmax_d arr (m + 1) =
        if arr.getD m 0 > arr.getD (argmax_d arr m) 0 then m else argmax_d arr m := by
      unfold argmax_d
      rw [List.range_succ, List.foldl_append]
      rfl
    obtain ⟨ih1, ih2, ih3⟩ := ih
    by_cases hc : arr.getD m 0 > arr.getD (argmax_d arr m) 0
    · rw [hstep, if_pos hc]
      refine ⟨Or.inr (Nat.lt_succ_self m), ?_, ?_⟩
      · intro i hi
        rcases Nat.lt_succ_iff_lt_or_eq.mp hi with hi2 | rfl
        · exact le_of_lt (lt_of_le_of_lt (ih2 i hi2) hc)
        · exact le_refl _
      · intro j hj
        exact lt_of_le_of_lt (ih2 j hj) hc
    · rw [hstep, if_neg hc]
      refine ⟨?_, ?_, ih3⟩
      · rcases ih1 with h | h
        · exact Or.inl h
        · exact Or.inr (Nat.lt_succ_of_lt h)
      · intro i hi
        rcases Nat.lt_succ_iff_lt_or_eq.mp hi with hi2 | rfl
        · exact ih2 i hi2
        · exact not_lt.mp hc

/-- C9 (confirmed): int_varray_free releases the buffer and returns the
array to the empty state with length = capacity = 0; applying it to an
already-freed (empty) array is safe and applying it twice gives the same
state as applying it once, so it is idempotent. -/
theorem int_varray_free_resets_idempotent :
    ∀ a : int_varray_t,
      (int_varray_free a).n = 0 ∧ (int_varray_free a).alloced = 0 ∧
      (int_varray_free a).capacity = 0 ∧ (int_varray_free a).data = [] ∧
      int_varray_free (int_varray_free a) = int_varray_free a := by
  intro a
  refine ⟨rfl, rfl, ?_, rfl, rfl⟩
  simp [int_varray_free, int_varray_t.capacity]

/-- C7 (code bug in the source): is_dir is claimed - also by its own comment -
to return true only when the path is a directory, but the source tests
st_mode & S_IFDIR instead of the POSIX S_ISDIR test, so a block device
(st_mode = S_IFBLK | 0o644, whose type bits overlap S_IFDIR) makes is_dir
return true even though S_ISDIR is false; a failed stat still returns
false as claimed. -/
theorem is_dir_true_on_block_device :
    is_dir (some (S_IFBLK ||| 0o644)) = true ∧
    S_ISDIR (S_IFBLK ||| 0o644) = false ∧
    is_dir none = false := by
  refine ⟨by decide, by decide, rfl⟩

/-- C4 (code bug in the source): readlink_malloc is claimed to read the
target into a fresh 100-byte buffer and return it once the read count is
strictly below the buffer size, but the source calls readlink BEFORE the
first allocation, while the buffer is still NULL; that first read fails
(EFAULT), so the buffer is freed and NULL is returned for every target
length N - even targets shorter than 100 bytes are never returned. -/
theorem readlink_malloc_always_null :
    ∀ (N fuel : Nat), readlink_malloc N (fuel + 1) = RLOut.null :=
  fun _ _ => rfl

/-- C5 (code bug in the source): the allocation check of
ae_load_file_to_memory tests the out-parameter `result` instead of the
allocated `*result`, so with a valid out-parameter a failed malloc is never
reported: the NULL buffer reaches fread and the terminator store (undefined
behaviour) instead of an AllocationFailure return. Open failure, short read
(partial buffer freed, not returned) and the successful exact-length return
behave as claimed. -/
theorem ae_load_alloc_failure_undetected :
    ae_load_file_to_memory false { file := some [7], mallocOk := false, readCount := 0 } = LoadResult.ub ∧
    ae_load_file_to_memory false { file := none, mallocOk := true, readCount := 0 } = LoadResult.openFail ∧
    ae_load_file_to_memory false { file := some [7, 8], mallocOk := true, readCount := 1 } = LoadResult.readFail ∧
    ae_load_file_to_memory false { file := some [7, 8], mallocOk := true, readCount := 2 } = LoadResult.ok 2 [7, 8, 0] := by
  refine ⟨rfl, rfl, ?_, ?_⟩ <;> decide

/-- C8 (confirmed): argmax_d returns an index of the maximum element and, on
ties, the lowest such index (every index below the result holds a strictly
smaller value); argmax_d on [3,1,4,1,5] is 4 and on [2,2] is 0. -/
theorem argmax_d_max_lowest :
    argmax_d [3, 1, 4, 1, 5] 5 = 4 ∧ argmax_d [2, 2] 2 = 0 ∧
    ∀ arr : List ℚ, arr ≠ [] →
      argmax_d arr arr.length < arr.length ∧
      (∀ i, i < arr.length → arr.getD i 0 ≤ arr.getD (argmax_d arr arr.length) 0) ∧
      (∀ j, j < argmax_d arr arr.length → arr.getD j 0 < arr.getD (argmax_d arr arr.length) 0) := by
  refine ⟨by decide, by decide, ?_⟩
  intro arr hne
  obtain ⟨h1, h2, h3⟩ := argmax_d_spec arr arr.length
  have hlen : 0 < arr.length := List.length_pos.mpr hne
  refine ⟨?_, h2, h3⟩
  rcases h1 with h | h
  · omega
  · exact h

theorem argmax_d_max_lowest_witness :
    argmax_d [3, 1, 4, 1, 5] (List.length [(3 : ℚ), 1, 4, 1, 5]) < List.length [(3 : ℚ), 1, 4, 1, 5] :=
  (argmax_d_max_lowest.2.2 [3, 1, 4, 1, 5] (by decide)).1

/-- C10 (confirmed): argmax_d with n = 0 returns index 0 for every array
(the result does not depend on any array element), and for n ≥ 1 the result
is always strictly below n, hence a valid index into a non-empty input. -/
theorem argmax_d_safe :
    (∀ arr : List ℚ, argmax_d arr 0 = 0) ∧
    (∀ (arr : List ℚ) (n : Nat), 1 ≤ n → argmax_d arr n < n) := by
  constructor
  · intro arr
    rfl
  · intro arr n hn
    obtain ⟨h1, -, -⟩ := argmax_d_spec arr n
    rcases h1 with h | h
    · omega
    · exact h

theorem argmax_d_safe_witness : argmax_d ([] : List ℚ) 1 < 1 :=
  argmax_d_safe.2 [] 1 (by decide)

/-- C3 (amended): the append overflow check fires exactly when growth is
triggered and the prospective new byte size would reach OR exceed SIZE_MAX:
the source's asserts demand strict room below SIZE_MAX, so a new size of
exactly SIZE_MAX (reachable with a fixed increment) also fails although it
is representable; in every other state no overflow error occurs, and the
check happens before any size computation, so nothing wraps. -/
theorem int_varray_overflow_check_amended (a : int_varray_t) (v : Int) :
    int_varray_add_value a v = Except.error VAErr.overflow ↔
      a.n * SIZEOF_INT = a.alloced ∧
        ((a.grow_by_size ≤ 1 ∧ SIZE_MAX ≤ a.alloced + a.alloced) ∨
          (1 < a.grow_by_size ∧ SIZE_MAX ≤ a.alloced + a.grow_by_size)) := by
  unfold int_varray_add_value int_varray_store
  constructor
  · intro h
    split at h
    case isTrue htrig =>
      split at h
      case isTrue hpol =>
        split at h
        case isTrue hass => split at h <;> split at h <;> simp_all
        case isFalse hass => exact ⟨htrig, Or.inl ⟨hpol, by omega⟩⟩
      case isFalse hpol =>
        split at h
        case isTrue hass => split at h <;> simp_all
        case isFalse hass => exact ⟨htrig, Or.inr ⟨by omega, by omega⟩⟩
    case isFalse htrig => split at h <;> simp_all
  · rintro ⟨htrig, hcase⟩
    rw [if_pos htrig]
    rcases hcase with ⟨hp, hov⟩ | ⟨hp, hov⟩
    · rw [if_pos hp, if_neg (by omega)]
    · rw [if_neg (by omega), if_neg (by omega)]

/-- C3 counterexample: a freshly initialized array with grow_by_size =
SIZE_MAX would grow to exactly SIZE_MAX bytes, which does NOT exceed the
representable range, yet the very first append fails with the overflow
error, refuting the claim that no such error occurs in non-overflowing
states. -/
theorem int_varray_overflow_check_boundary :
    int_varray_add_value (int_varray_init SIZE_MAX) 0 = Except.error VAErr.overflow ∧
    (int_varray_init SIZE_MAX).alloced + (int_varray_init SIZE_MAX).grow_by_size ≤ SIZE_MAX := by
  constructor
  · decide
  · decide

theorem int_varray_overflow_check_witness :
    int_varray_add_value ⟨2 ^ 61, 2 ^ 63, 0, []⟩ 0 = Except.error VAErr.overflow :=
  (int_varray_overflow_check_amended ⟨2 ^ 61, 2 ^ 63, 0, []⟩ 0).mpr
    ⟨by decide, Or.inl ⟨by decide, by decide⟩⟩

-- Helper facts about int_varray growth.

theorem storeAt_append (d : List Int) (v : Int) : storeAt d d.length v = d ++ [v] := by
  unfold storeAt
  rw [if_neg (lt_irrefl d.length)]
  simp

theorem int_varray_store_ok_of (a : int_varray_t) (v : Int)
    (hlen : a.data.length = a.n) (h : (a.n + 1) * SIZEOF_INT ≤ a.alloced) :
    int_varray_store a v =
      Except.ok { a with data := a.data ++ [v], n := a.n + 1 } := by
  have hs : storeAt a.data a.n v = a.data ++ [v] := by
    rw [← hlen]
    exact storeAt_append a.data v
  unfold int_varray_store
  rw [if_pos h, hs]

/-- New byte size chosen by int_varray_add_value (assuming the asserts pass). -/
def next_alloc (a : int_varray_t) : Nat :=
  if a.n * SIZEOF_INT = a.alloced then
    if a.grow_by_size ≤ 1 then (if a.n = 0 then SIZEOF_INT else a.alloced * 2)
    else a.alloced + a.grow_by_size
  else a.alloced

theorem add_eq_store (a : int_varray_t) (v : Int)
    (hass1 : SIZE_MAX - a.alloced > a.alloced)
    (hass2 : SIZE_MAX - a.alloced > a.grow_by_size) :
    int_varray_add_value a v = int_varray_store { a with alloced := next_alloc a } v := by
  unfold int_varray_add_value next_alloc
  by_cases htrig : a.n * SIZEOF_INT = a.alloced
  · rw [if_pos htrig, if_pos htrig]
    by_cases hpol : a.grow_by_size ≤ 1
    · rw [if_pos hpol, if_pos hpol, if_pos hass1]
    · rw [if_neg hpol, if_neg hpol, if_pos hass2]
  · rw [if_neg htrig, if_neg htrig]

theorem next_alloc_spec (a : int_varray_t) (hg : GoodInc a.grow_by_size)
    (hle : a.n * SIZEOF_INT ≤ a.alloced) (hdvd : SIZEOF_INT ∣ a.alloced)
    (hbd : a.alloced ≤ 2 * SIZEOF_INT * a.n + a.grow_by_size + SIZEOF_INT) :
    (a.n + 1) * SIZEOF_INT ≤ next_alloc a ∧ SIZEOF_INT ∣ next_alloc a ∧
      a.alloced ≤ next_alloc a ∧
      next_alloc a ≤ 2 * SIZEOF_INT * (a.n + 1) + a.grow_by_size + SIZEOF_INT := by
  unfold next_alloc
  simp only [GoodInc, SIZEOF_INT] at *
  by_cases htrig : a.n * 4 = a.alloced
  · rw [if_pos htrig]
    by_cases hpol : a.grow_by_size ≤ 1
    · rw [if_pos hpol]
      by_cases hn0 : a.n = 0
      · rw [if_pos hn0]
        omega
      · rw [if_neg hn0]
        omega
    · rw [if_neg hpol]
      rcases hg with h | h
      · omega
      · omega
  · rw [if_neg htrig]
    omega

theorem add_ok_of_inv (a : int_varray_t) (v : Int)
    (hg : GoodInc a.grow_by_size) (hinv : VAInv a)
    (hb : 2 * a.alloced + a.grow_by_size + SIZEOF_INT < SIZE_MAX) :
    ∃ b, int_varray_add_value a v = Except.ok b ∧ VAInv b ∧
      b.n = a.n + 1 ∧ b.data = a.data ++ [v] ∧ b.grow_by_size = a.grow_by_size ∧
      a.alloced ≤ b.alloced := by
  obtain ⟨hlen, hle, hdvd, hbd⟩ := hinv
  obtain ⟨hge, hdvd2, hmono, hub⟩ := next_alloc_spec a hg hle hdvd hbd
  have hass1 : SIZE_MAX - a.alloced > a.alloced := by omega
  have hass2 : SIZE_MAX - a.alloced > a.grow_by_size := by omega
  refine ⟨{ a with alloced := next_alloc a, data := a.data ++ [v], n := a.n + 1 },
    ?_, ⟨?_, ?_, ?_, ?_⟩, rfl, rfl, rfl, hmono⟩
  · rw [add_eq_store a v hass1 hass2]
    exact int_varray_store_ok_of { a with alloced := next_alloc a } v hlen hge
  · simp [hlen]
  · exact hge
  · exact hdvd2
  · exact hub

theorem appendAll_ok : ∀ (l : List Int) (a : int_varray_t),
    GoodInc a.grow_by_size → VAInv a →
    16 * (a.n + l.length) + 3 * a.grow_by_size + 16 < SIZE_MAX →
    ∃ b, int_varray_appendAll a l = Except.ok b ∧ VAInv b ∧
      b.n = a.n + l.length ∧ b.data = a.data ++ l ∧ b.grow_by_size = a.grow_by_size := by
  intro l
  induction l with
  | nil =>
    intro a hg hinv hb
    exact ⟨a, rfl, hinv, by simp, by simp, rfl⟩
  | cons v vs ih =>
    intro a hg hinv hb
    have hbstep : 2 * a.alloced + a.grow_by_size + SIZEOF_INT < SIZE_MAX := by
      obtain ⟨-, -, -, hbd⟩ := hinv
      simp only [SIZEOF_INT, List.length_cons] at *
      omega
    obtain ⟨b1, hadd, hinv1, hn1, hdata1, hgbs1, -⟩ := add_ok_of_inv a v hg hinv hbstep
    have hg1 : GoodInc b1.grow_by_size := by rw [hgbs1]; exact hg
    have hb1 : 16 * (b1.n + vs.length) + 3 * b1.grow_by_size + 16 < SIZE_MAX := by
      rw [hn1, hgbs1]
      simp only [List.length_cons] at hb
      omega
    obtain ⟨b, happ, hinvb, hnb, hdatab, hgb⟩ := ih b1 hg1 hinv1 hb1
    refine ⟨b, ?_, hinvb, ?_, ?_, ?_⟩
    · show int_varray_appendAll a (v :: vs) = Except.ok b
      unfold int_varray_appendAll
      rw [hadd]
      exact happ
    · rw [hnb, hn1]
      simp only [List.length_cons]
      omega
    · rw [hdatab, hdata1]
      simp
    · rw [hgb, hgbs1]

theorem growth_first_alloc (g : Nat) (v : Int) (b : int_varray_t)
    (hpol : g ≤ 1)
    (hok : int_varray_add_value (int_varray_init g) v = Except.ok b) :
    b.alloced = SIZEOF_INT ∧ b.capacity = 1 := by
  have hcalc : int_varray_add_value (int_varray_init g) v =
      Except.ok { n := 1, alloced := SIZEOF_INT, grow_by_size := g, data := [v] } := by
    unfold int_varray_add_value int_varray_store int_varray_init storeAt
    norm_num [SIZEOF_INT, SIZE_MAX, hpol]
  rw [hcalc] at hok
  injection hok with h
  rw [← h]
  exact ⟨rfl, by norm_num [int_varray_t.capacity, SIZEOF_INT]⟩

theorem growth_doubles (a : int_varray_t) (v : Int) (b : int_varray_t)
    (hpol : a.grow_by_size ≤ 1) (hn0 : a.n ≠ 0)
    (htrig : a.n * SIZEOF_INT = a.alloced)
    (hok : int_varray_add_value a v = Except.ok b) :
    b.alloced = a.alloced * 2 := by
  unfold int_varray_add_value int_varray_store at hok
  rw [if_pos htrig, if_pos hpol, if_neg hn0] at hok
  split at hok
  · split at hok
    · injection hok with h
      rw [← h]
    · exact absurd hok (by simp)
  · exact absurd hok (by simp)

theorem growth_fixed_bytes (a : int_varray_t) (v : Int) (b : int_varray_t)
    (hpol : 1 < a.grow_by_size)
    (htrig : a.n * SIZEOF_INT = a.alloced)
    (hok : int_varray_add_value a v = Except.ok b) :
    b.alloced = a.alloced + a.grow_by_size := by
  unfold int_varray_add_value int_varray_store at hok
  rw [if_pos htrig, if_neg (by omega)] at hok
  split at hok
  · split at hok
    · injection hok with h
      rw [← h]
    · exact absurd hok (by simp)
  · exact absurd hok (by simp)

/-- C2 (amended): with increment ≤ 1 the first allocation holds exactly one
element and every later growth doubles the byte size, as claimed; but with
increment > 1 each growth adds grow_by_size BYTES (grow_by_size/sizeof(int)
elements), not grow_by_size elements; and the length == N / capacity ≥ N /
retrievability guarantee for N appends holds when the increment is ≤ 1 or a
multiple of sizeof(int) (and the data volume stays below SIZE_MAX). -/
theorem int_varray_growth_policy_amended :
    (∀ (g : Nat) (v : Int) (b : int_varray_t), g ≤ 1 →
        int_varray_add_value (int_varray_init g) v = Except.ok b →
        b.alloced = SIZEOF_INT ∧ b.capacity = 1) ∧
    (∀ (a : int_varray_t) (v : Int) (b : int_varray_t), a.grow_by_size ≤ 1 → a.n ≠ 0 →
        a.n * SIZEOF_INT = a.alloced →
        int_varray_add_value a v = Except.ok b → b.alloced = a.alloced * 2) ∧
    (∀ (a : int_varray_t) (v : Int) (b : int_varray_t), 1 < a.grow_by_size →
        a.n * SIZEOF_INT = a.alloced →
        int_varray_add_value a v = Except.ok b →
        b.alloced = a.alloced + a.grow_by_size) ∧
    (∀ (g : Nat) (l : List Int), GoodInc g →
        16 * l.length + 3 * g + 16 < SIZE_MAX →
        ∃ b, int_varray_appendAll (int_varray_init g) l = Except.ok b ∧
          b.n = l.length ∧ l.length ≤ b.capacity ∧
          ∀ i, i < l.length → b.data.getD i 0 = l.getD i 0) := by
  refine ⟨growth_first_alloc, growth_doubles, growth_fixed_bytes, ?_⟩
  intro g l hg hb
  have hinv0 : VAInv (int_varray_init g) := by
    refine ⟨rfl, by simp [int_varray_init], ⟨0, by simp [int_varray_init]⟩, by simp [int_varray_init]⟩
  obtain ⟨b, happ, hinvb, hnb, hdatab, -⟩ :=
    appendAll_ok l (int_varray_init g) hg hinv0 (by simp only [int_varray_init]; omega)
  simp only [int_varray_init, Nat.zero_add, List.nil_append] at hnb hdatab
  refine ⟨b, happ, hnb, ?_, ?_⟩
  · obtain ⟨-, hle, -, -⟩ := hinvb
    have h4 : 0 < SIZEOF_INT := by norm_num [SIZEOF_INT]
    have h5 : b.n ≤ b.alloced / SIZEOF_INT := (Nat.le_div_iff_mul_le h4).mpr hle
    unfold int_varray_t.capacity
    rw [← hnb]
    exact h5
  · intro i hi
    rw [hdatab]

/-- C2 counterexample: with grow_by_size = 6 (which is > 1) the first growth
raises the allocation from 0 to 6 BYTES - element capacity 1, not an
increase of 6 elements as claimed - and the second append then writes beyond
the 6-byte block (undefined behaviour), so after N = 2 appends neither
length == N nor capacity ≥ N nor retrievability holds. -/
theorem int_varray_growth_not_elementwise :
    int_varray_add_value (int_varray_init 6) 1 = Except.ok ⟨1, 6, 6, [1]⟩ ∧
    (⟨1, 6, 6, [1]⟩ : int_varray_t).capacity = 1 ∧
    ((⟨1, 6, 6, [1]⟩ : int_varray_t).capacity == 6) = false ∧
    int_varray_add_value ⟨1, 6, 6, [1]⟩ 2 = Except.error VAErr.oob := by
  refine ⟨by decide, by decide, by decide, by decide⟩

theorem int_varray_growth_policy_witness :
    (⟨1, SIZEOF_INT, 0, [5]⟩ : int_varray_t).alloced = SIZEOF_INT ∧
    (⟨1, SIZEOF_INT, 0, [5]⟩ : int_varray_t).capacity = 1 :=
  int_varray_growth_policy_amended.1 0 5 ⟨1, SIZEOF_INT, 0, [5]⟩ (by decide) (by decide)

-- Helper facts about dbl_cmp and the sort of dbl_median.

theorem DBL_EPSILON_pos : 0 < DBL_EPSILON := by norm_num [DBL_EPSILON]

theorem epsSep_symm : ∀ {a b : ℚ}, EpsSep a b → EpsSep b a := by
  intro a b h
  rcases h with h | h
  · exact Or.inl h.symm
  · right
    rwa [abs_sub_comm]

theorem dbl_cmp_le_iff {a b : ℚ} (h : EpsSep a b) : dbl_cmp a b ≤ 0 ↔ a ≤ b := by
  rcases h with rfl | hsep
  · simp [dbl_cmp, DBL_EPSILON_pos]
  · have hne : ¬ |a - b| < DBL_EPSILON := not_lt.mpr hsep
    unfold dbl_cmp
    rw [if_neg hne]
    rcases lt_trichotomy a b with hlt | heq | hgt
    · rw [if_pos hlt]
      constructor
      · intro _
        exact le_of_lt hlt
      · intro _
        norm_num
    · exfalso
      rw [heq] at hsep
      simp only [sub_self, abs_zero] at hsep
      exact absurd hsep (by norm_num [DBL_EPSILON])
    · rw [if_neg (lt_asymm hgt), if_pos hgt]
      constructor
      · intro hc
        norm_num at hc
      · intro hc
        exact absurd hc (not_le.mpr hgt)

theorem dbl_insert_perm (x : ℚ) (l : List ℚ) : (dbl_insert x l).Perm (x :: l) := by
  induction l with
  | nil => exact List.Perm.refl _
  | cons y ys ih =>
    unfold dbl_insert
    by_cases hc : dbl_cmp x y ≤ 0
    · rw [if_pos hc]
    · rw [if_neg hc]
      exact (ih.cons y).trans (List.Perm.swap x y ys)

theorem dbl_sort_perm (l : List ℚ) : (dbl_sort l).Perm l := by
  induction l with
  | nil => exact List.Perm.refl _
  | cons x xs ih =>
    show (dbl_insert x (dbl_sort xs)).Perm (x :: xs)
    exact (dbl_insert_perm x (dbl_sort xs)).trans (ih.cons x)

theorem dbl_insert_sorted {x : ℚ} {l : List ℚ}
    (hsep : ∀ y ∈ l, EpsSep x y) (hs : List.Sorted (fun a b => a ≤ b) l) :
    List.Sorted (fun a b => a ≤ b) (dbl_insert x l) := by
  induction l with
  | nil => simp [dbl_insert]
  | cons y ys ih =>
    rw [List.sorted_cons] at hs
    obtain ⟨hy, hys⟩ := hs
    by_cases hc : dbl_cmp x y ≤ 0
    · have hxy : x ≤ y := (dbl_cmp_le_iff (hsep y (List.mem_cons_self y ys))).mp hc
      unfold dbl_insert
      rw [if_pos hc, List.sorted_cons]
      refine ⟨?_, ?_⟩
      · intro b hb
        rcases List.mem_cons.mp hb with rfl | hb2
        · exact hxy
        · exact le_trans hxy (hy b hb2)
      · rw [List.sorted_cons]
        exact ⟨hy, hys⟩
    · have hyx : y ≤ x := by
        rcases le_total x y with h | h
        · exact absurd ((dbl_cmp_le_iff (hsep y (List.mem_cons_self y ys))).mpr h) hc
        · exact h
      unfold dbl_insert
      rw [if_neg hc, List.sorted_cons]
      refine ⟨?_, ?_⟩
      · intro b hb
        rcases List.mem_cons.mp ((dbl_insert_perm x ys).mem_iff.mp hb) with rfl | hb2
        · exact hyx
        · exact hy b hb2
      · exact ih (fun z hz => hsep z (List.mem_cons_of_mem y hz)) hys

theorem dbl_sort_sorted {l : List ℚ} (h : l.Pairwise EpsSep) :
    List.Sorted (fun a b => a ≤ b) (dbl_sort l) := by
  induction l with
  | nil => simp [dbl_sort]
  | cons x xs ih =>
    rw [List.pairwise_cons] at h
    show List.Sorted (fun a b => a ≤ b) (dbl_insert x (dbl_sort xs))
    exact dbl_insert_sorted
      (fun y hy => h.1 y ((dbl_sort_perm xs).mem_iff.mp hy))
      (ih h.2)

theorem dbl_sort_eq_of_perm {l l2 : List ℚ} (hp : l.Perm l2) (h : l.Pairwise EpsSep) :
    dbl_sort l = dbl_sort l2 := by
  have h2 : l2.Pairwise EpsSep := (hp.pairwise_iff epsSep_symm).mp h
  exact List.eq_of_perm_of_sorted
    ((dbl_sort_perm l).trans (hp.trans (dbl_sort_perm l2).symm))
    (dbl_sort_sorted h) (dbl_sort_sorted h2)

/-- C6 (amended): dbl_median matches the claimed examples (2.5 on [1,2,3,4],
5 on [5], 0.0 on []), copies and sorts with the epsilon-tolerant comparator
and takes the middle element (odd size) or the mean of the two middle
elements (even size); it is invariant under permutation of the input
PROVIDED the input values are pairwise either equal or at least DBL_EPSILON
apart - in general the epsilon-tolerant comparator is not transitive and the
sorted order, hence the median, can depend on the input order. -/
theorem dbl_median_amended :
    dbl_median [1, 2, 3, 4] = 5 / 2 ∧ dbl_median [5] = 5 ∧ dbl_median [] = 0 ∧
    ∀ l l2 : List ℚ, l.Perm l2 → l.Pairwise EpsSep → dbl_median l = dbl_median l2 := by
  refine ⟨?_, ?_, ?_, ?_⟩
  · norm_num [dbl_median, dbl_sort, dbl_insert, dbl_cmp, DBL_EPSILON]
  · norm_num [dbl_median, dbl_sort, dbl_insert, dbl_cmp, DBL_EPSILON]
  · norm_num [dbl_median]
  · intro l l2 hp hsep
    unfold dbl_median
    rw [hp.length_eq, dbl_sort_eq_of_perm hp hsep]

/-- C6 counterexample: [6/2^54, 0, 3/2^54] is a permutation of
[0, 3/2^54, 6/2^54] (all three values are exactly representable doubles and
all their differences are exact), yet dbl_median returns 6/2^54 on the
first and 3/2^54 on the second: with values closer than DBL_EPSILON the
comparator is not transitive and the median is NOT permutation-invariant. -/
theorem dbl_median_perm_dependent :
    List.Perm [(6 : ℚ) / 2 ^ 54, 0, 3 / 2 ^ 54] [(0 : ℚ), 3 / 2 ^ 54, 6 / 2 ^ 54] ∧
    dbl_median [(6 : ℚ) / 2 ^ 54, 0, 3 / 2 ^ 54] = 6 / 2 ^ 54 ∧
    dbl_median [(0 : ℚ), 3 / 2 ^ 54, 6 / 2 ^ 54] = 3 / 2 ^ 54 ∧
    (3 : ℚ) / 2 ^ 54 < 6 / 2 ^ 54 := by
  refine ⟨?_, ?_, ?_, by norm_num⟩
  · exact List.Perm.trans (List.Perm.swap _ _ _) (List.Perm.cons _ (List.Perm.swap _ _ _))
  · norm_num [dbl_median, dbl_sort, dbl_insert, dbl_cmp, DBL_EPSILON, abs_of_nonneg, abs_of_nonpos]
  · norm_num [dbl_median, dbl_sort, dbl_insert, dbl_cmp, DBL_EPSILON, abs_of_nonneg, abs_of_nonpos]

theorem dbl_median_amended_witness : dbl_median [(1 : ℚ), 2] = dbl_median [(2 : ℚ), 1] :=
  dbl_median_amended.2.2.2 [(1 : ℚ), 2] [(2 : ℚ), 1] (List.Perm.swap 2 1 [])
    (by norm_num [List.pairwise_cons, EpsSep, DBL_EPSILON])

/-- C1 (confirmed): after any completed resolved_path call - success or any
non-fatal failure - the working directory equals the one saved at the start.
In the shipped program the readlink step is the readlink_malloc call at
utils.c:380, and readlink_malloc returns NULL for every symlink (the
transposed readlink/realloc bug of C4), so the loop can never pass that
step: the chdir at utils.c:386 is dead code, the working directory is never
changed, every exit goes through chdir_and_return while already in the
saved directory, and the restore holds even when the final chdir itself
fails. The hreadlink hypothesis fixes the readlink step to the always-NULL
behaviour the source forces. -/
theorem resolved_path_restores_cwd (fs : FSModel) (fuel : Nat)
    (path cwd0 : String) (e : RPExit) (r : Option String) (cwd1 : String)
    (hreadlink : ∀ c p, fs.readlink c p = none)
    (hrun : resolved_path fs fuel path cwd0 = some (e, r, cwd1)) :
    cwd1 = cwd0 := by
  have hrest : chdir_restore fs cwd0 cwd0 = cwd0 := by
    simp [chdir_restore]
  cases fuel with
  | zero => simp [resolved_path, rpAux] at hrun
  | succ m =>
    simp only [resolved_path, rpAux] at hrun
    split at hrun
    · simp only [Option.some.injEq, Prod.mk.injEq] at hrun
      obtain ⟨-, -, h3⟩ := hrun
      rw [← h3]
      exact hrest
    · split at hrun
      · rw [hreadlink] at hrun
        simp only [Option.some.injEq, Prod.mk.injEq] at hrun
        obtain ⟨-, -, h3⟩ := hrun
        rw [← h3]
        exact hrest
      · simp only [Option.some.injEq, Prod.mk.injEq] at hrun
        obtain ⟨-, -, h3⟩ := hrun
        rw [← h3]
        exact hrest

theorem resolved_path_restores_cwd_witness : ("/w" : String) = ("/w") :=
  resolved_path_restores_cwd fs0 1 ("/x") ("/w") RPExit.ok (some ("/x")) ("/w")
    (fun _ _ => rfl) (by decide)
